import Mathlib

/-!
Shallow embedding of the SkillGap adaptive recommendation engine
(`src/bandit/`): LinUCB, Thompson sampling, the neural bandit, the hybrid
ensemble, the multi-objective Pareto selection, the skill-metadata fallbacks
and the cold-start initialisation.  Matrices are 2×2 over `ℚ` (the spec's
concrete scenarios use `n_features = 2`); `np.sqrt`/`np.exp` are embedded as
`Real.sqrt`/`Real.exp`, and `np.random` draws are oracle parameters.
-/

namespace SkillGap

/-- Arms are skill names. -/
abbrev Skill := String

/-- Pointwise update of a dictionary modelled as a total function
(`self.d[k] = v`). -/
def updateFn {α : Type} (f : Skill → α) (k : Skill) (v : α) : Skill → α :=
  fun s => if s = k then v else f s

/-- Python's `max(scores, key=scores.get)`: first element of maximal value
(later elements replace the current best only when strictly greater); `none`
on the empty dict, where Python raises `ValueError`. -/
def pickMax {α β : Type} [LinearOrder β] (l : List (α × β)) : Option (α × β) :=
  l.foldl
    (fun acc p =>
      match acc with
      | none => some p
      | some q => if q.2 < p.2 then some p else some q)
    none

@[simp] theorem pickMax_nil {α β : Type} [LinearOrder β] :
    pickMax ([] : List (α × β)) = none := rfl

/-! ### 2×2 matrices and 2-vectors over ℚ (row-major `[[a, b], [c, d]]`) -/

structure Vec2 where
  x : ℚ
  y : ℚ
deriving DecidableEq

structure Mat2 where
  a : ℚ
  b : ℚ
  c : ℚ
  d : ℚ
deriving DecidableEq

instance : Zero Vec2 := ⟨⟨0, 0⟩⟩
instance : Add Vec2 := ⟨fun u v => ⟨u.x + v.x, u.y + v.y⟩⟩
instance : SMul ℚ Vec2 := ⟨fun r v => ⟨r * v.x, r * v.y⟩⟩
instance : Zero Mat2 := ⟨⟨0, 0, 0, 0⟩⟩
instance : One Mat2 := ⟨⟨1, 0, 0, 1⟩⟩
instance : Add Mat2 := ⟨fun m n => ⟨m.a + n.a, m.b + n.b, m.c + n.c, m.d + n.d⟩⟩
instance : SMul ℚ Mat2 := ⟨fun r m => ⟨r * m.a, r * m.b, r * m.c, r * m.d⟩⟩

@[simp] theorem Vec2.zero_x : (0 : Vec2).x = 0 := rfl
@[simp] theorem Vec2.zero_y : (0 : Vec2).y = 0 := rfl
@[simp] theorem Vec2.add_x (u v : Vec2) : (u + v).x = u.x + v.x := rfl
@[simp] theorem Vec2.add_y (u v : Vec2) : (u + v).y = u.y + v.y := rfl
@[simp] theorem Vec2.smul_x (r : ℚ) (v : Vec2) : (r • v).x = r * v.x := rfl
@[simp] theorem Vec2.smul_y (r : ℚ) (v : Vec2) : (r • v).y = r * v.y := rfl
@[simp] theorem Mat2.one_a : (1 : Mat2).a = 1 := rfl
@[simp] theorem Mat2.one_b : (1 : Mat2).b = 0 := rfl
@[simp] theorem Mat2.one_c : (1 : Mat2).c = 0 := rfl
@[simp] theorem Mat2.one_d : (1 : Mat2).d = 1 := rfl
@[simp] theorem Mat2.zero_a : (0 : Mat2).a = 0 := rfl
@[simp] theorem Mat2.zero_b : (0 : Mat2).b = 0 := rfl
@[simp] theorem Mat2.zero_c : (0 : Mat2).c = 0 := rfl
@[simp] theorem Mat2.zero_d : (0 : Mat2).d = 0 := rfl
@[simp] theorem Mat2.add_a (m n : Mat2) : (m + n).a = m.a + n.a := rfl
@[simp] theorem Mat2.add_b (m n : Mat2) : (m + n).b = m.b + n.b := rfl
@[simp] theorem Mat2.add_c (m n : Mat2) : (m + n).c = m.c + n.c := rfl
@[simp] theorem Mat2.add_d (m n : Mat2) : (m + n).d = m.d + n.d := rfl
@[simp] theorem Mat2.smul_a (r : ℚ) (m : Mat2) : (r • m).a = r * m.a := rfl
@[simp] theorem Mat2.smul_b (r : ℚ) (m : Mat2) : (r • m).b = r * m.b := rfl
@[simp] theorem Mat2.smul_c (r : ℚ) (m : Mat2) : (r • m).c = r * m.c := rfl
@[simp] theorem Mat2.smul_d (r : ℚ) (m : Mat2) : (r • m).d = r * m.d := rfl

theorem vec2_eq_iff {u v : Vec2} : u = v ↔ u.x = v.x ∧ u.y = v.y := by
  cases u; cases v; simp

theorem mat2_eq_iff {m n : Mat2} :
    m = n ↔ m.a = n.a ∧ m.b = n.b ∧ m.c = n.c ∧ m.d = n.d := by
  cases m; cases n; simp [and_assoc]

/-- `context @ context.T` for a column vector. -/
def outer (v : Vec2) : Mat2 := ⟨v.x * v.x, v.x * v.y, v.y * v.x, v.y * v.y⟩

def Mat2.mulVec (m : Mat2) (v : Vec2) : Vec2 :=
  ⟨m.a * v.x + m.b * v.y, m.c * v.x + m.d * v.y⟩

def dot (u v : Vec2) : ℚ := u.x * v.x + u.y * v.y

def Mat2.det (m : Mat2) : ℚ := m.a * m.d - m.b * m.c

/-- `np.linalg.inv` on a 2×2 matrix: the exact inverse (adjugate over the
determinant) when the matrix is nonsingular, `none` where NumPy raises
`LinAlgError` on a singular matrix. -/
def inv2 (m : Mat2) : Option Mat2 :=
  if m.det = 0 then none
  else some ⟨m.d / m.det, -m.b / m.det, -m.c / m.det, m.a / m.det⟩

/-! ### LinUCB (`src/bandit/linucb.py`) -/

/-- Per-arm LinUCB state: exploration coefficient `alpha`, design matrices `A`
and reward vectors `b` (dictionaries over arms, initialised to the identity
and zero by `__init__`). -/
structure LinUCBState where
  alpha : ℚ
  A : Skill → Mat2
  b : Skill → Vec2

namespace LinUCB

/-- `LinUCB.__init__`: `A[arm] = I`, `b[arm] = 0` for every arm. -/
def init (alpha : ℚ) : LinUCBState :=
  ⟨alpha, fun _ => 1, fun _ => 0⟩

/-- One arm's UCB score in `LinUCB.recommend` (lines 26–35):
`theta = A⁻¹ b`, `p = thetaᵀx + alpha * sqrt(xᵀ A⁻¹ x)`; `none` when the
unregularized inversion of `A` fails. -/
noncomputable def score (alpha : ℚ) (A : Mat2) (bv : Vec2) (ctx : Vec2) :
    Option ℝ :=
  (inv2 A).map fun Ai =>
    ((dot (Ai.mulVec bv) ctx : ℚ) : ℝ) +
      (alpha : ℝ) * Real.sqrt ((dot ctx (Ai.mulVec ctx) : ℚ) : ℝ)

/-- The score dictionary built by the loop in `recommend`; `none` as soon as
one arm's matrix inversion raises. -/
noncomputable def scoreList (st : LinUCBState) :
    List (Skill × Vec2) → Option (List (Skill × ℝ))
  | [] => some []
  | (sk, ctx) :: rest =>
    match score st.alpha (st.A sk) (st.b sk) ctx with
    | none => none
    | some s => (scoreList st rest).map ((sk, s) :: ·)

/-- `LinUCB.recommend(contexts)`: `max(scores, key=scores.get)`; `none` when a
matrix inversion fails or the context dict is empty. -/
noncomputable def recommend (st : LinUCBState) (ctxs : List (Skill × Vec2)) :
    Option Skill :=
  match scoreList st ctxs with
  | none => none
  | some l => (pickMax l).map (·.1)

/-- `LinUCB.update(arm, reward, context)`:
`A[arm] += context contextᵀ`, `b[arm] += reward * context`. -/
def update (st : LinUCBState) (arm : Skill) (reward : ℚ) (ctx : Vec2) :
    LinUCBState :=
  { st with
      A := updateFn st.A arm (st.A arm + outer ctx)
      b := updateFn st.b arm (st.b arm + reward • ctx) }

end LinUCB

/-! ### The spec's concrete LinUCB scenario -/

/-- Context for "Python": `[1, 0]`. -/
def ctxPy : Vec2 := ⟨1, 0⟩

/-- Context for "SQL": `[0, 1]`. -/
def ctxSql : Vec2 := ⟨0, 1⟩

/-- The scenario's context map, insertion order "Python" then "SQL". -/
def scenarioCtxs : List (Skill × Vec2) := [("Python", ctxPy), ("SQL", ctxSql)]

/-- Identity-initialised LinUCB with `alpha = 1.0`. -/
def st0 : LinUCBState := LinUCB.init 1

/-- State after `update("Python", 1.0, [1,0])`. -/
def st1 : LinUCBState := LinUCB.update st0 "Python" 1 ctxPy

theorem score_st0_py :
    LinUCB.score st0.alpha (st0.A "Python") (st0.b "Python") ctxPy = some 1 := by
  simp [LinUCB.score, inv2, Mat2.det, st0, LinUCB.init, Mat2.mulVec, dot, ctxPy]

theorem score_st0_sql :
    LinUCB.score st0.alpha (st0.A "SQL") (st0.b "SQL") ctxSql = some 1 := by
  simp [LinUCB.score, inv2, Mat2.det, st0, LinUCB.init, Mat2.mulVec, dot, ctxSql]

theorem st1_A_py : st1.A "Python" = ⟨2, 0, 0, 1⟩ := by
  rw [mat2_eq_iff]
  simp [st1, LinUCB.update, updateFn, st0, LinUCB.init, outer, ctxPy]
  norm_num

theorem st1_b_py : st1.b "Python" = ⟨1, 0⟩ := by
  rw [vec2_eq_iff]
  simp [st1, LinUCB.update, updateFn, st0, LinUCB.init, ctxPy]

theorem st1_A_sql : st1.A "SQL" = 1 := by
  simp [st1, LinUCB.update, updateFn, st0, LinUCB.init]

theorem st1_b_sql : st1.b "SQL" = 0 := by
  simp [st1, LinUCB.update, updateFn, st0, LinUCB.init]

theorem score_st1_py :
    LinUCB.score st1.alpha (st1.A "Python") (st1.b "Python") ctxPy =
      some ((1 / 2 : ℝ) + Real.sqrt (1 / 2)) := by
  rw [st1_A_py, st1_b_py]
  have ha : st1.alpha = 1 := rfl
  rw [ha]
  simp [LinUCB.score, inv2, Mat2.det, Mat2.mulVec, dot, ctxPy]

theorem score_st1_sql :
    LinUCB.score st1.alpha (st1.A "SQL") (st1.b "SQL") ctxSql = some 1 := by
  rw [st1_A_sql, st1_b_sql]
  have ha : st1.alpha = 1 := rfl
  rw [ha]
  simp [LinUCB.score, inv2, Mat2.det, Mat2.mulVec, dot, ctxSql]

theorem one_lt_score_st1_py : (1 : ℝ) < 1 / 2 + Real.sqrt (1 / 2) := by
  have h : (1 / 2 : ℝ) < Real.sqrt (1 / 2) := by
    rw [Real.lt_sqrt (by norm_num)]
    norm_num
  linarith

theorem recommend_st0_eq : LinUCB.recommend st0 scenarioCtxs = some "Python" := by
  simp [LinUCB.recommend, LinUCB.scoreList, scenarioCtxs, score_st0_py, score_st0_sql, pickMax]

theorem recommend_st1_eq : LinUCB.recommend st1 scenarioCtxs = some "Python" := by
  have h : ¬ ((2 : ℝ)⁻¹ + (Real.sqrt 2)⁻¹ < 1) := by
    have h2 : Real.sqrt 2 < 2 := by
      rw [Real.sqrt_lt' (by norm_num)]
      norm_num
    have h0 : (0 : ℝ) < Real.sqrt 2 := Real.sqrt_pos.2 (by norm_num)
    have h3 : (2 : ℝ)⁻¹ < (Real.sqrt 2)⁻¹ := inv_strictAnti₀ h0 h2
    linarith
  rw [LinUCB.recommend]
  rw [show LinUCB.scoreList st1 scenarioCtxs =
      some [("Python", (1 / 2 : ℝ) + Real.sqrt (1 / 2)), ("SQL", 1)] by
    simp [LinUCB.scoreList, scenarioCtxs, score_st1_py, score_st1_sql]]
  simp [pickMax, h]

/-- C1: in the scenario `arms = ["Python", "SQL"]`, `n_features = 2`,
identity-initialised LinUCB with `alpha = 1.0`, contexts `[1,0]` / `[0,1]`:
the first `recommend` computes UCB score 1.0 for both arms and returns the
tie-break-consistent first arm "Python"; after `update("Python", 1.0, [1,0])`
the second `recommend` returns "Python", Python's UCB score strictly
exceeding SQL's, which remains 1.0. -/
theorem linucb_concrete_scenario :
    LinUCB.score st0.alpha (st0.A "Python") (st0.b "Python") ctxPy = some 1 ∧
    LinUCB.score st0.alpha (st0.A "SQL") (st0.b "SQL") ctxSql = some 1 ∧
    LinUCB.recommend st0 scenarioCtxs = some "Python" ∧
    LinUCB.recommend st1 scenarioCtxs = some "Python" ∧
    (∃ s : ℝ, LinUCB.score st1.alpha (st1.A "Python") (st1.b "Python") ctxPy
        = some s ∧ 1 < s) ∧
    LinUCB.score st1.alpha (st1.A "SQL") (st1.b "SQL") ctxSql = some 1 :=
  ⟨score_st0_py, score_st0_sql, recommend_st0_eq, recommend_st1_eq,
    ⟨1 / 2 + Real.sqrt (1 / 2), score_st1_py, one_lt_score_st1_py⟩,
    score_st1_sql⟩

/-! ### Regularized inversion in the hybrid ensemble
(`src/bandit/hybrid_bandit.py`, line 98) versus the unguarded inversion in
`LinUCB.recommend` (`src/bandit/linucb.py`, line 26). -/

/-- `np.linalg.inv(A + np.eye(A.shape[0]) * 1e-6)`: the regularized inverse
used by `HybridMultiArmedBandit._weighted_voting`. -/
def hybridRegInv (A : Mat2) : Option Mat2 :=
  inv2 (A + (1 / 1000000 : ℚ) • 1)

/-- A LinUCB state whose matrix `A["X"]` is singular (the zero matrix). -/
def stSingular : LinUCBState := ⟨1, fun _ => 0, fun _ => 0⟩

/-- C2 counterexample: `LinUCB.recommend` does NOT guard its matrix inversion:
on a state with a singular `A` the inversion of `A` itself fails (NumPy raises
`LinAlgError`), so `recommend` fails instead of returning an arm. -/
theorem linucb_recommend_inversion_fails_on_singular :
    LinUCB.recommend stSingular [("X", ⟨1, 0⟩)] = none := by
  simp [LinUCB.recommend, LinUCB.scoreList, LinUCB.score, stSingular, inv2,
    Mat2.det]

/-- C2 amended: only the hybrid ensemble's `_weighted_voting` guards the
LinUCB score's inversion, inverting `A + 1e-6·I` — which succeeds for every
symmetric positive-semidefinite `A` — while `LinUCB.recommend` itself inverts
`A` unguarded and fails on a singular `A`. -/
theorem weighted_voting_guards_inversion :
    (∀ A : Mat2, A.b = A.c → 0 ≤ A.a → 0 ≤ A.d → 0 ≤ A.det →
      (hybridRegInv A).isSome) ∧
    LinUCB.recommend stSingular [("X", ⟨1, 0⟩)] = none := by
  constructor
  · intro A hsym ha hd hdet
    have hne : (A + (1 / 1000000 : ℚ) • 1).det ≠ 0 := by
      have hd' : (A + (1 / 1000000 : ℚ) • 1).det =
          A.det + (1 / 1000000) * (A.a + A.d) + (1 / 1000000) ^ 2 := by
        simp [Mat2.det]
        ring
      rw [hd']
      positivity
    rw [hybridRegInv, inv2, if_neg hne]
    rfl
  · simp [LinUCB.recommend, LinUCB.scoreList, LinUCB.score, stSingular, inv2,
      Mat2.det]

/-- Closed witness for the amended C2 theorem at the singular matrix
`A = 0`. -/
theorem weighted_voting_guards_inversion_witness :
    (hybridRegInv 0).isSome ∧ LinUCB.recommend stSingular [("X", ⟨1, 0⟩)] = none :=
  ⟨weighted_voting_guards_inversion.1 0 rfl le_rfl le_rfl
      (by norm_num [Mat2.det]),
    weighted_voting_guards_inversion.2⟩

/-! ### Thompson sampling (`src/bandit/thompson_sampling.py`) -/

/-- Per-arm Thompson state: Beta parameters `alpha`, `beta`, the pull counters
and the per-arm reward histories. -/
structure ThompsonState where
  alpha : Skill → ℚ
  beta : Skill → ℚ
  pulls : Skill → ℕ
  rewardsHistory : Skill → List ℚ

namespace ThompsonSampling

/-- `ThompsonSamplingBandit.__init__`: uniform prior `Beta(1, 1)`, zero pulls,
empty histories. -/
def init : ThompsonState :=
  ⟨fun _ => 1, fun _ => 1, fun _ => 0, fun _ => []⟩

/-- `ThompsonSamplingBandit.update(skill, reward)`:
`alpha[skill] += reward`, `beta[skill] += (1 - reward)`, and the reward is
appended to `rewards_history[skill]`; `pulls` is untouched. -/
def update (st : ThompsonState) (skill : Skill) (reward : ℚ) : ThompsonState :=
  { st with
      alpha := updateFn st.alpha skill (st.alpha skill + reward)
      beta := updateFn st.beta skill (st.beta skill + (1 - reward))
      rewardsHistory :=
        updateFn st.rewardsHistory skill (st.rewardsHistory skill ++ [reward]) }

/-- `ThompsonSamplingBandit.recommend(candidate_skills)`: draw one Beta sample
per candidate (the draws are the oracle `samples`), pick the arm with the
largest sample and increment its pull counter; on an empty candidate list
Python's `max` raises before any state is touched. -/
def recommend (samples : Skill → ℚ) (st : ThompsonState)
    (candidates : List Skill) : Option Skill × ThompsonState :=
  match pickMax (candidates.map fun s => (s, samples s)) with
  | none => (none, st)
  | some (a, _) => (some a, { st with pulls := updateFn st.pulls a (st.pulls a + 1) })

/-- Posterior mean `alpha / (alpha + beta)` from `get_statistics`. -/
def posteriorMean (st : ThompsonState) (skill : Skill) : ℚ :=
  st.alpha skill / (st.alpha skill + st.beta skill)

end ThompsonSampling

/-- C3: one Thompson `update(skill, r)` with `r ∈ [0, 1]` adds exactly 1 to
`alpha[skill] + beta[skill]`, and the posterior mean `alpha/(alpha+beta)` does
not move away from `r` (for any prior state with positive `alpha`, `beta`);
indeed it stays on the same side of `r`. -/
theorem thompson_update_mass_and_mean (st : ThompsonState) (skill : Skill)
    (r : ℚ) (ha : 0 < st.alpha skill) (hb : 0 < st.beta skill)
    (hr0 : 0 ≤ r) (hr1 : r ≤ 1) :
    (ThompsonSampling.update st skill r).alpha skill +
        (ThompsonSampling.update st skill r).beta skill =
      st.alpha skill + st.beta skill + 1 ∧
    |ThompsonSampling.posteriorMean (ThompsonSampling.update st skill r) skill - r|
        ≤ |ThompsonSampling.posteriorMean st skill - r| ∧
    0 ≤ (ThompsonSampling.posteriorMean (ThompsonSampling.update st skill r) skill - r) *
        (ThompsonSampling.posteriorMean st skill - r) := by
  set a := st.alpha skill with hadef
  set b := st.beta skill with hbdef
  have halpha : (ThompsonSampling.update st skill r).alpha skill = a + r := by
    simp [ThompsonSampling.update, updateFn]
  have hbeta : (ThompsonSampling.update st skill r).beta skill = b + (1 - r) := by
    simp [ThompsonSampling.update, updateFn]
  have hsum : a + b ≠ 0 := by positivity
  have hsum1 : a + b + 1 ≠ 0 := by positivity
  have hmean : ThompsonSampling.posteriorMean st skill = a / (a + b) := rfl
  have hmean' :
      ThompsonSampling.posteriorMean (ThompsonSampling.update st skill r) skill =
        (a + r) / (a + b + 1) := by
    rw [ThompsonSampling.posteriorMean, halpha, hbeta]
    ring_nf
  have key :
      ThompsonSampling.posteriorMean (ThompsonSampling.update st skill r) skill - r =
        ((a + b) / (a + b + 1)) *
          (ThompsonSampling.posteriorMean st skill - r) := by
    rw [hmean, hmean']
    field_simp
    ring
  refine ⟨by rw [halpha, hbeta]; ring, ?_, ?_⟩
  · rw [key, abs_mul]
    have hk0 : (0 : ℚ) ≤ (a + b) / (a + b + 1) := by positivity
    have hk1 : (a + b) / (a + b + 1) ≤ 1 := by
      rw [div_le_one (by positivity)]
      linarith
    calc |(a + b) / (a + b + 1)| * |ThompsonSampling.posteriorMean st skill - r|
        = ((a + b) / (a + b + 1)) * |ThompsonSampling.posteriorMean st skill - r| := by
          rw [abs_of_nonneg hk0]
      _ ≤ 1 * |ThompsonSampling.posteriorMean st skill - r| := by
          exact mul_le_mul_of_nonneg_right hk1 (abs_nonneg _)
      _ = |ThompsonSampling.posteriorMean st skill - r| := one_mul _
  · rw [key]
    have hk0 : (0 : ℚ) ≤ (a + b) / (a + b + 1) := by positivity
    calc (0 : ℚ) ≤ ((a + b) / (a + b + 1)) *
          (ThompsonSampling.posteriorMean st skill - r) ^ 2 := by positivity
      _ = ((a + b) / (a + b + 1)) * (ThompsonSampling.posteriorMean st skill - r) *
          (ThompsonSampling.posteriorMean st skill - r) := by ring

/-- Closed witness for C3: the uniform prior `Beta(1,1)` updated with reward
1 moves the posterior mean from 1/2 to 2/3, toward 1, and the parameter mass
grows from 2 to 3. -/
theorem thompson_update_mass_and_mean_witness :
    (ThompsonSampling.update ThompsonSampling.init "Python" 1).alpha "Python" +
        (ThompsonSampling.update ThompsonSampling.init "Python" 1).beta "Python" =
      ThompsonSampling.init.alpha "Python" + ThompsonSampling.init.beta "Python" + 1 ∧
    |ThompsonSampling.posteriorMean
        (ThompsonSampling.update ThompsonSampling.init "Python" 1) "Python" - 1|
        ≤ |ThompsonSampling.posteriorMean ThompsonSampling.init "Python" - 1| ∧
    0 ≤ (ThompsonSampling.posteriorMean
          (ThompsonSampling.update ThompsonSampling.init "Python" 1) "Python" - 1) *
        (ThompsonSampling.posteriorMean ThompsonSampling.init "Python" - 1) :=
  thompson_update_mass_and_mean ThompsonSampling.init "Python" 1
    (by norm_num [ThompsonSampling.init]) (by norm_num [ThompsonSampling.init])
    (by norm_num) (by norm_num)

/-! ### Neural UCB (`src/bandit/neural_ucb.py`) -/

/-- One arm's two-layer network: `W1 : d×h`, `b1 : h`, `W2 : h×1`, `b2`
scalar. -/
structure NNet (d h : ℕ) where
  W1 : Fin d → Fin h → ℚ
  b1 : Fin h → ℚ
  W2 : Fin h → ℚ
  b2 : ℚ

namespace NeuralUCB

/-- ReLU activation. -/
def relu (q : ℚ) : ℚ := max 0 q

/-- Hidden pre-activations `z1 = x·W1 + b1` of `_forward`. -/
def z1 {d h : ℕ} (net : NNet d h) (x : Fin d → ℚ) : Fin h → ℚ :=
  fun j => (∑ i, x i * net.W1 i j) + net.b1 j

/-- `_forward`'s scalar prediction `relu(x·W1+b1)·W2 + b2`. -/
def forward {d h : ℕ} (net : NNet d h) (x : Fin d → ℚ) : ℚ :=
  (∑ j, relu (z1 net x j) * net.W2 j) + net.b2

/-- One epoch of `NeuralUCB.update`: forward pass, squared-error gradients,
and the four gradient-descent weight assignments. -/
def gdStep {d h : ℕ} (lr reward : ℚ) (x : Fin d → ℚ) (net : NNet d h) :
    NNet d h :=
  let zs := z1 net x
  let a1 := fun j => relu (zs j)
  let pred := (∑ j, a1 j * net.W2 j) + net.b2
  let dpred := 2 * (pred - reward)
  let dz1 := fun j => dpred * net.W2 j * (if 0 < zs j then 1 else 0)
  { W1 := fun i j => net.W1 i j - lr * (x i * dz1 j)
    b1 := fun j => net.b1 j - lr * dz1 j
    W2 := fun j => net.W2 j - lr * (a1 j * dpred)
    b2 := net.b2 - lr * dpred }

/-- Per-arm NeuralUCB state: learning rate, networks, training histories and
update counters. -/
structure NeuralState (d h : ℕ) where
  lr : ℚ
  nets : Skill → NNet d h
  history : Skill → List ℚ
  updates : Skill → ℕ

/-- `NeuralUCB.update(arm, reward, context, n_epochs)`: `n_epochs` rounds of
gradient descent on the arm's network, then the reward is recorded and the
arm's update counter incremented. -/
def update {d h : ℕ} (st : NeuralState d h) (arm : Skill) (reward : ℚ)
    (x : Fin d → ℚ) (nEpochs : ℕ) : NeuralState d h :=
  { st with
      nets := updateFn st.nets arm ((gdStep st.lr reward x)^[nEpochs] (st.nets arm))
      history := updateFn st.history arm (st.history arm ++ [reward])
      updates := updateFn st.updates arm (st.updates arm + 1) }

/-- `NeuralUCB.recommend(contexts, exploration_bonus)`: score each arm as
`prediction + bonus / sqrt(max(updates, 1))` and return the max; the method
performs no assignment, so the state component is returned unchanged. -/
noncomputable def recommend {d h : ℕ} (st : NeuralState d h)
    (ctxs : List (Skill × (Fin d → ℚ))) (bonus : ℚ) :
    Option Skill × NeuralState d h :=
  ((pickMax (ctxs.map fun p =>
      (p.1, ((forward (st.nets p.1) p.2 : ℚ) : ℝ) +
        (bonus : ℝ) / Real.sqrt ((max (st.updates p.1) 1 : ℕ) : ℝ) ))).map (·.1),
    st)

end NeuralUCB

/-! ### Which recommend calls mutate per-arm state (C9) -/

/-- `LinUCB.recommend` performs no assignment to `self`; its stateful view
returns the state unchanged next to the chosen arm. -/
noncomputable def LinUCB.recommendS (st : LinUCBState)
    (ctxs : List (Skill × Vec2)) : Option Skill × LinUCBState :=
  (LinUCB.recommend st ctxs, st)

/-- Concrete Beta-sample oracle preferring "Python". -/
def tSamples : Skill → ℚ := fun s => if s = "Python" then 3 / 5 else 2 / 5

/-- C9 counterexample: a Thompson `recommend` call DOES mutate per-arm state:
from the freshly initialised bandit, one `recommend(["Python", "SQL"])` call
whose best sample is "Python" leaves `pulls["Python"] = 1` although no
`update` has run. -/
theorem thompson_recommend_mutates_pulls :
    (ThompsonSampling.recommend tSamples ThompsonSampling.init
        ["Python", "SQL"]).2.pulls "Python" = 1 ∧
    ThompsonSampling.init.pulls "Python" = 0 := by
  constructor
  · rw [ThompsonSampling.recommend]
    norm_num [pickMax, tSamples, updateFn, ThompsonSampling.init,
      show ("SQL" : String) ≠ "Python" from by decide]
  · rfl

/-- C9 amended: `LinUCB.recommend` and `NeuralUCB.recommend` mutate no
per-arm state; `ThompsonSamplingBandit.recommend` leaves `alpha`, `beta` and
`rewards_history` unchanged but increments the chosen arm's `pulls` counter
(and touches nothing when the candidate list is empty); LinUCB `A`/`b`,
Thompson `alpha`/`beta` and neural weights are mutated only by `update`. -/
theorem recommend_mutates_only_thompson_pulls {d h : ℕ}
    (lst : LinUCBState) (lctxs : List (Skill × Vec2))
    (nst : NeuralUCB.NeuralState d h) (nctxs : List (Skill × (Fin d → ℚ)))
    (bonus : ℚ) (samples : Skill → ℚ) (tst : ThompsonState)
    (cands : List Skill) :
    (LinUCB.recommendS lst lctxs).2 = lst ∧
    (NeuralUCB.recommend nst nctxs bonus).2 = nst ∧
    (ThompsonSampling.recommend samples tst cands).2.alpha = tst.alpha ∧
    (ThompsonSampling.recommend samples tst cands).2.beta = tst.beta ∧
    (ThompsonSampling.recommend samples tst cands).2.rewardsHistory =
      tst.rewardsHistory ∧
    ((ThompsonSampling.recommend samples tst cands).1 = none →
      (ThompsonSampling.recommend samples tst cands).2 = tst) ∧
    (∀ a, (ThompsonSampling.recommend samples tst cands).1 = some a →
      (ThompsonSampling.recommend samples tst cands).2.pulls =
        updateFn tst.pulls a (tst.pulls a + 1)) := by
  refine ⟨rfl, rfl, ?_⟩
  rcases hp : pickMax (cands.map fun s => (s, samples s)) with _ | ⟨a, q⟩ <;>
    simp [ThompsonSampling.recommend, hp]

/-- Closed witness for the amended C9 theorem: from the fresh Thompson state
with sample oracle preferring "Python", the pulls dictionary after one
`recommend` equals the original with only "Python" bumped by one. -/
theorem recommend_mutates_only_thompson_pulls_witness :
    (ThompsonSampling.recommend tSamples ThompsonSampling.init
        ["Python", "SQL"]).2.pulls =
      updateFn ThompsonSampling.init.pulls "Python"
        (ThompsonSampling.init.pulls "Python" + 1) :=
  (recommend_mutates_only_thompson_pulls (LinUCB.init 1) []
      (⟨1 / 20, fun _ => ⟨fun _ _ => 0, fun _ => 0, fun _ => 0, 0⟩,
        fun _ => [], fun _ => 0⟩ : NeuralUCB.NeuralState 2 1) [] 1
      tSamples ThompsonSampling.init ["Python", "SQL"]).2.2.2.2.2.2 "Python"
    (by rw [ThompsonSampling.recommend]
        norm_num [pickMax, tSamples,
          show ("SQL" : String) ≠ "Python" from by decide])

/-! ### Multi-objective Pareto selection (`src/bandit/multi_objective.py`,
`pareto_optimal_selection`, lines 307–362).  The five per-skill objective
scores and the (noisy) total reward computed by
`calculate_multi_objective_reward` enter the selection only through the
per-skill values, so they are parameters `objf` / `rewardf` here. -/

/-- The five-objective breakdown dict, in the order built by
`calculate_multi_objective_reward`. -/
structure ObjVec where
  career : ℚ
  timeEff : ℚ
  diffMatch : ℚ
  market : ℚ
  prereq : ℚ
deriving DecidableEq

/-- `skill_j` dominates `skill_i` (lines 342–352): better-or-equal in all
five objectives and strictly better in at least one. -/
def dominates (q p : ObjVec) : Prop :=
  (p.career ≤ q.career ∧ p.timeEff ≤ q.timeEff ∧ p.diffMatch ≤ q.diffMatch ∧
    p.market ≤ q.market ∧ p.prereq ≤ q.prereq) ∧
  (p.career < q.career ∨ p.timeEff < q.timeEff ∨ p.diffMatch < q.diffMatch ∨
    p.market < q.market ∨ p.prereq < q.prereq)

instance (q p : ObjVec) : Decidable (dominates q p) := by
  unfold dominates
  infer_instance

theorem not_dominates_self (v : ObjVec) : ¬ dominates v v := by
  simp [dominates]

/-- The Pareto front loop (lines 330–357): keep an entry iff no other entry
dominates it.  The source skips only the comparison of an entry with its own
index `i == j`; since `dominates v v` is false (`not_dominates_self`),
comparing each entry against every entry of the list, itself included, keeps
exactly the same elements. -/
def paretoFront (l : List (Skill × ObjVec × ℚ)) : List (Skill × ObjVec × ℚ) :=
  l.filter fun p => ! l.any fun q => decide (dominates q.2.1 p.2.1)

/-- `pareto_optimal_selection(candidate_skills, learner, top_k)`: score every
candidate, drop dominated ones, sort by total reward descending, return the
first `top_k`. -/
def paretoOptimalSelection (objf : Skill → ObjVec) (rewardf : Skill → ℚ)
    (candidates : List Skill) (topK : ℕ) : List (Skill × ObjVec × ℚ) :=
  let entries := candidates.map fun s => (s, objf s, rewardf s)
  ((paretoFront entries).mergeSort fun p q => decide (q.2.2 ≤ p.2.2)).take topK

/-- C5: `pareto_optimal_selection` never returns a skill whose computed
five-objective vector is dominated (equal-or-better everywhere, strictly
better somewhere) by any other candidate of the same input set. -/
theorem pareto_selection_not_dominated (objf : Skill → ObjVec)
    (rewardf : Skill → ℚ) (candidates : List Skill) (topK : ℕ)
    (e : Skill × ObjVec × ℚ)
    (he : e ∈ paretoOptimalSelection objf rewardf candidates topK)
    (t : Skill) (ht : t ∈ candidates) :
    ¬ dominates (objf t) (objf e.1) := by
  have hsorted := List.mem_of_mem_take he
  have hfront : e ∈ paretoFront (candidates.map fun s => (s, objf s, rewardf s)) :=
    (List.mergeSort_perm _ _).mem_iff.mp hsorted
  rcases List.mem_filter.mp hfront with ⟨hentry, hpred⟩
  have hpred2 : ((candidates.map fun s => (s, objf s, rewardf s)).any
      fun q => decide (dominates q.2.1 e.2.1)) = false := by
    simpa using hpred
  have hnotdom : ∀ q ∈ (candidates.map fun s => (s, objf s, rewardf s)),
      ¬ dominates q.2.1 e.2.1 := by
    intro q hq
    have h := List.any_eq_false.mp hpred2 q hq
    simpa using h
  rcases List.mem_map.mp hentry with ⟨s, _, hse⟩
  have hobj : e.2.1 = objf e.1 := by rw [← hse]
  have hqmem : (t, objf t, rewardf t) ∈
      (candidates.map fun s => (s, objf s, rewardf s)) :=
    List.mem_map_of_mem _ ht
  have := hnotdom _ hqmem
  rwa [hobj] at this

/-- Concrete objective table: "A" beats "B" in every objective. -/
def objW : Skill → ObjVec := fun s =>
  if s = "A" then ⟨1, 1, 1, 1, 1⟩ else ⟨0, 0, 0, 0, 0⟩

theorem objW_dominates_AB : dominates (objW "A") (objW "B") := by
  norm_num [dominates, objW, show ("B" : String) ≠ "A" from by decide]

theorem objW_not_dominates_AA : ¬ dominates (objW "A") (objW "A") :=
  not_dominates_self _

theorem objW_not_dominates_BA : ¬ dominates (objW "B") (objW "A") := by
  norm_num [dominates, objW, show ("B" : String) ≠ "A" from by decide]

theorem paretoFront_witness_eval :
    paretoFront [("A", objW "A", (0 : ℚ)), ("B", objW "B", 0)] =
      [("A", objW "A", 0)] := by
  simp [paretoFront, List.filter_cons, objW_dominates_AB, objW_not_dominates_AA,
    objW_not_dominates_BA, not_dominates_self]

theorem paretoSelection_witness_eval :
    paretoOptimalSelection objW (fun _ => 0) ["A", "B"] 3 =
      [("A", objW "A", 0)] := by
  unfold paretoOptimalSelection
  simp only [List.map_cons, List.map_nil]
  rw [paretoFront_witness_eval]
  simp

/-- Closed witness for C5: from candidates `["A", "B"]` where "A" dominates
"B", the entry returned for "A" is not dominated by "B". -/
theorem pareto_selection_not_dominated_witness :
    ¬ dominates (objW "B") (objW "A") :=
  pareto_selection_not_dominated objW (fun _ => 0) ["A", "B"] 3
    ("A", objW "A", 0)
    (by rw [paretoSelection_witness_eval]; simp)
    "B" (by simp)

/-! ### Skill-metadata fallbacks (`src/bandit/multi_objective.py` lines
142–191, `src/bandit/explainable_ai.py` lines 100–132).  A metadata row may
itself lack fields, so both the table lookup (`skill_metadata.get(skill, {})`)
and the field lookups (`metadata.get(..., default)`) are `Option`-valued; all
lookups are total functions, so no fallback can raise. -/

/-- The fields of one `skill_metadata` row read by these components. -/
structure SkillMeta where
  difficulty : Option ℚ
  learningTime : Option ℚ

/-- `self.skill_metadata`, keyed by skill name. -/
abbrev MetaTable := Skill → Option SkillMeta

/-- `_time_efficiency_score`'s learning-time lookup (line 148–149):
`metadata.get('learning_time', 150)` after `skill_metadata.get(skill, {})`. -/
def timeEffLearningTime (tbl : MetaTable) (skill : Skill) : ℚ :=
  ((tbl skill).getD ⟨none, none⟩).learningTime.getD 150

/-- `_time_efficiency_score(skill, learner)` (lines 142–159):
`effective_time = learning_time / max(learning_speed, 0.3)`;
`1 - min(effective_time / 500, 1)`. -/
def timeEfficiencyScore (tbl : MetaTable) (skill : Skill)
    (learningSpeed : ℚ) : ℚ :=
  let effectiveTime := timeEffLearningTime tbl skill / max learningSpeed (3 / 10)
  1 - min (effectiveTime / 500) 1

/-- The same arithmetic with the spec's claimed fallback `learning_time =
100`; this definition follows the spec's words, for comparison with
`timeEfficiencyScore` (which follows the source). -/
def timeEfficiencyScoreSpec (tbl : MetaTable) (skill : Skill)
    (learningSpeed : ℚ) : ℚ :=
  let learningTime := ((tbl skill).getD ⟨none, none⟩).learningTime.getD 100
  let effectiveTime := learningTime / max learningSpeed (3 / 10)
  1 - min (effectiveTime / 500) 1

/-- `_difficulty_match_score`'s difficulty lookup (lines 169–170):
`metadata.get('difficulty', 0.5)`. -/
def diffMatchDifficulty (tbl : MetaTable) (skill : Skill) : ℚ :=
  ((tbl skill).getD ⟨none, none⟩).difficulty.getD (1 / 2)

/-- `_difficulty_match_score(skill, learner)` (lines 161–183): Gaussian match
`exp(-diff² / 0.2)` around the learner's speed. -/
noncomputable def difficultyMatchScore (tbl : MetaTable) (skill : Skill)
    (learningSpeed : ℚ) : ℝ :=
  let diff : ℝ := |((diffMatchDifficulty tbl skill : ℚ) : ℝ) - (learningSpeed : ℝ)|
  Real.exp (-(diff ^ 2) / (1 / 5))

/-- `_market_demand_score(skill)` (lines 185–191):
`market_demand_scores.get(skill, 0.5)`; the precomputed per-skill demand table
(randomised at construction) is the oracle `demand`. -/
def marketDemandScore (demand : Skill → Option ℚ) (skill : Skill) : ℚ :=
  (demand skill).getD (1 / 2)

/-- The two metadata values read by `ExplainableRecommender._simple_explanation`
(lines 105–107): `metadata.get('difficulty', 0.5)` and
`metadata.get('learning_time', 100)`. -/
def simpleExplanationMeta (tbl : MetaTable) (skill : Skill) : ℚ × ℚ :=
  (((tbl skill).getD ⟨none, none⟩).difficulty.getD (1 / 2),
    ((tbl skill).getD ⟨none, none⟩).learningTime.getD 100)

/-- C6 counterexample: for a skill absent from the metadata table the
multi-objective time-efficiency component falls back to `learning_time = 150`,
not the claimed 100: at learner speed 0.5 the source computes score 2/5 where
the claimed fallback of 100 would give 3/5. -/
theorem time_efficiency_fallback_150_not_100 :
    timeEfficiencyScore (fun _ => none) "Zig" (1 / 2) = 2 / 5 ∧
    timeEfficiencyScoreSpec (fun _ => none) "Zig" (1 / 2) = 3 / 5 ∧
    (2 / 5 : ℚ) ≠ 3 / 5 := by
  norm_num [timeEfficiencyScore, timeEfficiencyScoreSpec, timeEffLearningTime]

/-- C6 amended: for every skill absent from the metadata table, the fallbacks
are difficulty 0.5 and market demand 0.5 as claimed, and the explainable
recommender additionally falls back to `learning_time = 100`; but the
multi-objective `_time_efficiency_score` falls back to `learning_time = 150`.
Every lookup is a total function, so the fallback never raises. -/
theorem metadata_fallback_values (tbl : MetaTable)
    (demand : Skill → Option ℚ) (skill : Skill) (htbl : tbl skill = none)
    (hdem : demand skill = none) :
    diffMatchDifficulty tbl skill = 1 / 2 ∧
    marketDemandScore demand skill = 1 / 2 ∧
    simpleExplanationMeta tbl skill = (1 / 2, 100) ∧
    timeEffLearningTime tbl skill = 150 := by
  rw [diffMatchDifficulty, marketDemandScore, simpleExplanationMeta,
    timeEffLearningTime, htbl, hdem]
  norm_num

/-- Closed witness for the amended C6 theorem at the empty metadata table. -/
theorem metadata_fallback_values_witness :
    diffMatchDifficulty (fun _ => none) "Zig" = 1 / 2 ∧
    marketDemandScore (fun _ => none) "Zig" = 1 / 2 ∧
    simpleExplanationMeta (fun _ => none) "Zig" = (1 / 2, 100) ∧
    timeEffLearningTime (fun _ => none) "Zig" = 150 :=
  metadata_fallback_values (fun _ => none) (fun _ => none) "Zig" rfl rfl

/-! ### Cold start (`src/bandit/cold_start.py`, lines 161–212).  The cluster
assignment itself (`find_similar_cluster`, k-means) only selects WHICH
snapshot is transferred, so the embedding takes the transferred snapshot
(`transfer_bandit_parameters` result; `none` when the cluster has no stored
parameters) as input.  `store_cluster_parameters` stores the `A` and `b`
dictionaries of one trained LinUCB, keyed by the same arm set, so a snapshot
maps each skill to one optional `(A, b)` pair. -/

/-- A stored per-cluster LinUCB parameter snapshot
(`cluster_bandit_params[cluster_id]['linucb']`). -/
abbrev Snapshot (n : ℕ) := Skill → Option (Matrix (Fin n) (Fin n) ℚ × (Fin n → ℚ))

/-- `initialize_new_user_bandit(new_learner, all_skills, n_features)` minus
the cluster id: per-skill initial `A` and `b` and the transfer confidence.
With a snapshot: `A = 0.7·transferred + 0.3·I`, `b = 0.7·transferred`,
confidence 0.7, falling back to `I`/`0` per skill missing from the snapshot;
without: fresh identity prior, zero `b`, confidence 0.0. -/
def initializeNewUserBandit (n : ℕ) (transferred : Option (Snapshot n)) :
    (Skill → Matrix (Fin n) (Fin n) ℚ) × (Skill → (Fin n → ℚ)) × ℚ :=
  match transferred with
  | none => (fun _ => 1, fun _ => 0, 0)
  | some t =>
    (fun skill =>
       match t skill with
       | some p => (7 / 10 : ℚ) • p.1 + (3 / 10 : ℚ) • (1 : Matrix (Fin n) (Fin n) ℚ)
       | none => 1,
     fun skill =>
       match t skill with
       | some p => (7 / 10 : ℚ) • p.2
       | none => 0,
     7 / 10)

/-- C8: `initialize_new_user_bandit` blends an existing cluster snapshot as
`A = 0.7·A_transferred + 0.3·I`, `b = 0.7·b_transferred` with confidence 0.7,
falls back to identity `A` and zero `b` for skills missing from the snapshot,
and uses the pure fresh prior with confidence 0.0 when the cluster has no
snapshot. -/
theorem cold_start_initialization (n : ℕ) (transferred : Option (Snapshot n))
    (t : Snapshot n) (skill : Skill) :
    (transferred = some t → ∀ A0 b0, t skill = some (A0, b0) →
      (initializeNewUserBandit n transferred).1 skill =
          (7 / 10 : ℚ) • A0 + (3 / 10 : ℚ) • 1 ∧
        (initializeNewUserBandit n transferred).2.1 skill = (7 / 10 : ℚ) • b0 ∧
        (initializeNewUserBandit n transferred).2.2 = 7 / 10) ∧
    (transferred = some t → t skill = none →
      (initializeNewUserBandit n transferred).1 skill = 1 ∧
        (initializeNewUserBandit n transferred).2.1 skill = 0 ∧
        (initializeNewUserBandit n transferred).2.2 = 7 / 10) ∧
    (transferred = none →
      (initializeNewUserBandit n transferred).1 skill = 1 ∧
        (initializeNewUserBandit n transferred).2.1 skill = 0 ∧
        (initializeNewUserBandit n transferred).2.2 = 0) := by
  refine ⟨?_, ?_, ?_⟩
  · rintro rfl A0 b0 hsk
    simp [initializeNewUserBandit, hsk]
  · rintro rfl hsk
    simp [initializeNewUserBandit, hsk]
  · rintro rfl
    simp [initializeNewUserBandit]

/-- Concrete transferred matrix for the C8 witness. -/
def snapA : Matrix (Fin 1) (Fin 1) ℚ := Matrix.of fun _ _ => 2

/-- Concrete transferred vector for the C8 witness. -/
def snapB : Fin 1 → ℚ := fun _ => 3

/-- Concrete snapshot for the C8 witness. -/
def snapT : Snapshot 1 := fun _ => some (snapA, snapB)

/-- Closed witness for C8 in the transferred-parameters case. -/
theorem cold_start_initialization_witness :
    (initializeNewUserBandit 1 (some snapT)).1 "Python" =
        (7 / 10 : ℚ) • snapA + (3 / 10 : ℚ) • 1 ∧
      (initializeNewUserBandit 1 (some snapT)).2.1 "Python" = (7 / 10 : ℚ) • snapB ∧
      (initializeNewUserBandit 1 (some snapT)).2.2 = 7 / 10 :=
  (cold_start_initialization 1 (some snapT) snapT "Python").1 rfl snapA snapB rfl

/-! ### Hybrid ensemble (`src/bandit/hybrid_bandit.py`) -/

/-- `history[-n:]`. -/
def lastN (n : ℕ) (l : List ℚ) : List ℚ := l.drop (l.length - n)

/-- `np.mean` of a list of rationals. -/
def listMean (l : List ℚ) : ℚ := l.sum / l.length

/-- `_meta_learn` (lines 250–289): recent performance per algorithm (mean of
the last 100 rewards, or the algorithm's current weight when fewer than 100
observations), softmax with temperature factor 5, smoothing with
`meta_learning_rate = 0.1`, then normalisation to sum 1. -/
noncomputable def metaLearn (pL pT pN : List ℚ) (wL wT wN : ℝ) : ℝ × ℝ × ℝ :=
  let rp : List ℚ → ℝ → ℝ := fun hist w =>
    if 100 ≤ hist.length then ((listMean (lastN 100 hist) : ℚ) : ℝ) else w
  let eL := Real.exp (rp pL wL * 5)
  let eT := Real.exp (rp pT wT * 5)
  let eN := Real.exp (rp pN wN * 5)
  let total := eL + eT + eN
  let uL := (1 - 1 / 10) * wL + (1 / 10) * (eL / total)
  let uT := (1 - 1 / 10) * wT + (1 / 10) * (eT / total)
  let uN := (1 - 1 / 10) * wN + (1 / 10) * (eN / total)
  let t2 := uL + uT + uN
  (uL / t2, uT / t2, uN / t2)

/-- The hybrid engine's state: the three base bandits, the three per-algorithm
performance histories and the three ensemble weights. -/
structure HybridState (hsz : ℕ) where
  linucb : LinUCBState
  thompson : ThompsonState
  neural : NeuralUCB.NeuralState 2 hsz
  perfLin : List ℚ
  perfThom : List ℚ
  perfNeur : List ℚ
  wLin : ℝ
  wThom : ℝ
  wNeur : ℝ

/-- A context column vector as a `Fin 2`-indexed function (for the neural
bandit). -/
def vec2Fn (v : Vec2) : Fin 2 → ℚ := ![v.x, v.y]

/-- `HybridMultiArmedBandit.__init__` with the given initial weights (default
0.4/0.3/0.3); the random small-scale initial networks are the oracle
`nets0`.  LinUCB gets `alpha = 1.0`, the neural bandit learning rate 0.05. -/
def hybridInit (hsz : ℕ) (nets0 : Skill → NNet 2 hsz) (wL wT wN : ℝ) :
    HybridState hsz :=
  { linucb := LinUCB.init 1
    thompson := ThompsonSampling.init
    neural := ⟨1 / 20, nets0, fun _ => [], fun _ => 0⟩
    perfLin := [], perfThom := [], perfNeur := []
    wLin := wL, wThom := wT, wNeur := wN }

/-- `HybridMultiArmedBandit.update(skill, reward, context)` (lines 231–244):
fan the observation out to all three bandits, append the same reward to all
three performance histories, and run `_meta_learn` on every 20th call. -/
noncomputable def hybridUpdate {hsz : ℕ} (s : HybridState hsz) (skill : Skill)
    (reward : ℚ) (ctx : Vec2) : HybridState hsz :=
  let pL := s.perfLin ++ [reward]
  let pT := s.perfThom ++ [reward]
  let pN := s.perfNeur ++ [reward]
  let w := if pL.length % 20 = 0 then metaLearn pL pT pN s.wLin s.wThom s.wNeur
           else (s.wLin, s.wThom, s.wNeur)
  { linucb := LinUCB.update s.linucb skill reward ctx
    thompson := ThompsonSampling.update s.thompson skill reward
    neural := NeuralUCB.update s.neural skill reward (vec2Fn ctx) 5
    perfLin := pL, perfThom := pT, perfNeur := pN
    wLin := w.1, wThom := w.2.1, wNeur := w.2.2 }

/-- A sequence of `update` calls, first element first. -/
noncomputable def applyUpdates {hsz : ℕ} (s : HybridState hsz) :
    List (Skill × ℚ × Vec2) → HybridState hsz
  | [] => s
  | u :: us => applyUpdates (hybridUpdate s u.1 u.2.1 u.2.2) us

/-- The ensemble weights' sum. -/
def sumWeights {hsz : ℕ} (s : HybridState hsz) : ℝ := s.wLin + s.wThom + s.wNeur

/-- The data-model invariant on the ensemble weights (§3 of the spec):
non-negative components. -/
def weightsNonneg {hsz : ℕ} (s : HybridState hsz) : Prop :=
  0 ≤ s.wLin ∧ 0 ≤ s.wThom ∧ 0 ≤ s.wNeur

theorem metaLearn_nonneg_sum_one (pL pT pN : List ℚ) (wL wT wN : ℝ)
    (h1 : 0 ≤ wL) (h2 : 0 ≤ wT) (h3 : 0 ≤ wN) :
    (0 ≤ (metaLearn pL pT pN wL wT wN).1 ∧
      0 ≤ (metaLearn pL pT pN wL wT wN).2.1 ∧
      0 ≤ (metaLearn pL pT pN wL wT wN).2.2) ∧
    (metaLearn pL pT pN wL wT wN).1 + (metaLearn pL pT pN wL wT wN).2.1 +
      (metaLearn pL pT pN wL wT wN).2.2 = 1 := by
  rw [metaLearn]
  set rp : List ℚ → ℝ → ℝ := fun hist w =>
    if 100 ≤ hist.length then ((listMean (lastN 100 hist) : ℚ) : ℝ) else w with hrp
  set eL := Real.exp (rp pL wL * 5) with heL
  set eT := Real.exp (rp pT wT * 5) with heT
  set eN := Real.exp (rp pN wN * 5) with heN
  have heLpos : 0 < eL := Real.exp_pos _
  have heTpos : 0 < eT := Real.exp_pos _
  have heNpos : 0 < eN := Real.exp_pos _
  have htot : 0 < eL + eT + eN := by positivity
  set uL := (1 - 1 / 10) * wL + (1 / 10) * (eL / (eL + eT + eN)) with huL
  set uT := (1 - 1 / 10) * wT + (1 / 10) * (eT / (eL + eT + eN)) with huT
  set uN := (1 - 1 / 10) * wN + (1 / 10) * (eN / (eL + eT + eN)) with huN
  have huLpos : 0 ≤ uL := by
    rw [huL]; positivity
  have huTpos : 0 ≤ uT := by
    rw [huT]; positivity
  have huNpos : 0 ≤ uN := by
    rw [huN]; positivity
  have hsum : uL + uT + uN =
      (1 - 1 / 10) * (wL + wT + wN) + 1 / 10 := by
    rw [huL, huT, huN]
    field_simp
    ring
  have ht2 : 0 < uL + uT + uN := by
    rw [hsum]
    nlinarith
  refine ⟨⟨by positivity, by positivity, by positivity⟩, ?_⟩
  field_simp

/-- One `update` call: weights stay non-negative; when the call is a 20th one
(meta-learning fires) the new weights sum to exactly 1; otherwise the weights
are unchanged. -/
theorem hybridUpdate_weights {hsz : ℕ} (s : HybridState hsz) (skill : Skill)
    (reward : ℚ) (ctx : Vec2) (hw : weightsNonneg s) :
    weightsNonneg (hybridUpdate s skill reward ctx) ∧
    ((s.perfLin.length + 1) % 20 = 0 →
      sumWeights (hybridUpdate s skill reward ctx) = 1) ∧
    ((s.perfLin.length + 1) % 20 ≠ 0 →
      (hybridUpdate s skill reward ctx).wLin = s.wLin ∧
      (hybridUpdate s skill reward ctx).wThom = s.wThom ∧
      (hybridUpdate s skill reward ctx).wNeur = s.wNeur) := by
  obtain ⟨h1, h2, h3⟩ := hw
  have hlen : (s.perfLin ++ [reward]).length = s.perfLin.length + 1 := by simp
  by_cases hmod : (s.perfLin.length + 1) % 20 = 0
  · have hml := metaLearn_nonneg_sum_one (s.perfLin ++ [reward])
      (s.perfThom ++ [reward]) (s.perfNeur ++ [reward]) s.wLin s.wThom s.wNeur
      h1 h2 h3
    constructor
    · simp only [weightsNonneg, hybridUpdate, hlen, hmod, if_pos]
      exact hml.1
    constructor
    · intro _
      simp only [sumWeights, hybridUpdate, hlen, hmod, if_pos]
      exact hml.2
    · intro hcontra
      exact absurd hmod hcontra
  · constructor
    · simp only [weightsNonneg, hybridUpdate, hlen, hmod, if_neg, not_false_iff]
      exact ⟨h1, h2, h3⟩
    constructor
    · intro hcontra
      exact absurd hcontra hmod
    · intro _
      simp only [hybridUpdate, hlen, hmod, if_neg, not_false_iff]
      refine ⟨?_, ?_, ?_⟩ <;> trivial

theorem applyUpdates_perfLin_length {hsz : ℕ} (seq : List (Skill × ℚ × Vec2))
    (s : HybridState hsz) :
    (applyUpdates s seq).perfLin.length = s.perfLin.length + seq.length := by
  induction seq generalizing s with
  | nil => simp [applyUpdates]
  | cons u us ih =>
    rw [applyUpdates, ih]
    simp [hybridUpdate]
    omega

theorem applyUpdates_weights_invariant {hsz : ℕ}
    (seq : List (Skill × ℚ × Vec2)) (s : HybridState hsz)
    (hw : weightsNonneg s)
    (hs : 20 ≤ s.perfLin.length → sumWeights s = 1) :
    weightsNonneg (applyUpdates s seq) ∧
    (20 ≤ (applyUpdates s seq).perfLin.length → sumWeights (applyUpdates s seq) = 1) := by
  induction seq generalizing s with
  | nil => exact ⟨hw, hs⟩
  | cons u us ih =>
    rw [applyUpdates]
    obtain ⟨hwn, hmeta, hskip⟩ := hybridUpdate_weights s u.1 u.2.1 u.2.2 hw
    refine ih _ hwn ?_
    intro hge
    have hlen' : (hybridUpdate s u.1 u.2.1 u.2.2).perfLin.length =
        s.perfLin.length + 1 := by
      simp [hybridUpdate]
    by_cases hmod : (s.perfLin.length + 1) % 20 = 0
    · exact hmeta hmod
    · have hskip' := hskip hmod
      have h20 : 20 ≤ s.perfLin.length := by
        rw [hlen'] at hge
        rcases Nat.lt_or_ge s.perfLin.length 20 with hlt | hge'
        · have : s.perfLin.length + 1 = 20 := by omega
          rw [this] at hmod
          simp at hmod
        · exact hge'
      rw [sumWeights, hskip'.1, hskip'.2.1, hskip'.2.2]
      exact hs h20

/-- C4: starting from any non-negative initial weights (the spec's §3 weight
invariant) and for any sequence of observed rewards, once the first
meta-learning step has run (any 20th `update` call and after), the three
ensemble weights sum to exactly 1. -/
theorem ensemble_weights_sum_one {hsz : ℕ} (nets0 : Skill → NNet 2 hsz)
    (seq : List (Skill × ℚ × Vec2)) (wL wT wN : ℝ)
    (h1 : 0 ≤ wL) (h2 : 0 ≤ wT) (h3 : 0 ≤ wN) (hlen : 20 ≤ seq.length) :
    sumWeights (applyUpdates (hybridInit hsz nets0 wL wT wN) seq) = 1 := by
  have h := applyUpdates_weights_invariant seq (hybridInit hsz nets0 wL wT wN)
    ⟨h1, h2, h3⟩ (by intro h20; simp [hybridInit] at h20)
  refine h.2 ?_
  rw [applyUpdates_perfLin_length]
  simpa [hybridInit] using hlen

/-- All-zero initial networks for the hybrid witnesses. -/
def netsW : Skill → NNet 2 1 := fun _ => ⟨fun _ _ => 0, fun _ => 0, fun _ => 0, 0⟩

/-- Closed witness for C4: after 20 identical updates from the default
weights 0.4/0.3/0.3 the ensemble weights sum to 1. -/
theorem ensemble_weights_sum_one_witness :
    sumWeights (applyUpdates (hybridInit 1 netsW (4 / 10) (3 / 10) (3 / 10))
      (List.replicate 20 ("Python", 1 / 2, (⟨1, 0⟩ : Vec2)))) = 1 :=
  ensemble_weights_sum_one netsW _ (4 / 10) (3 / 10) (3 / 10)
    (by norm_num) (by norm_num) (by norm_num) (by simp)

/-- The per-algorithm recent performance computed by `_best_performer`
(lines 160–192): 0.5 for an empty history, else the mean of the last 50
rewards. -/
def bestPerformerPerf {hsz : ℕ} (s : HybridState hsz) : ℚ × ℚ × ℚ :=
  (if s.perfLin.length = 0 then 1 / 2 else listMean (lastN 50 s.perfLin),
    if s.perfThom.length = 0 then 1 / 2 else listMean (lastN 50 s.perfThom),
    if s.perfNeur.length = 0 then 1 / 2 else listMean (lastN 50 s.perfNeur))

theorem applyUpdates_perf_eq {hsz : ℕ} (seq : List (Skill × ℚ × Vec2))
    (s : HybridState hsz) (h1 : s.perfLin = s.perfThom)
    (h2 : s.perfThom = s.perfNeur) :
    (applyUpdates s seq).perfLin = (applyUpdates s seq).perfThom ∧
    (applyUpdates s seq).perfThom = (applyUpdates s seq).perfNeur := by
  induction seq generalizing s with
  | nil => exact ⟨h1, h2⟩
  | cons u us ih =>
    rw [applyUpdates]
    exact ih _ (by simp [hybridUpdate, h1]) (by simp [hybridUpdate, h2])

/-- C10: every hybrid `update` appends the same observed reward to all three
per-algorithm performance histories, so after any update sequence the three
histories are element-wise identical; hence the recent mean rewards used by
`_best_performer` (last 50, 0.5 when empty) and by `_meta_learn` (last 100)
are equal across the three algorithms. -/
theorem performance_histories_identical {hsz : ℕ} (nets0 : Skill → NNet 2 hsz)
    (wL wT wN : ℝ) (seq : List (Skill × ℚ × Vec2)) :
    (applyUpdates (hybridInit hsz nets0 wL wT wN) seq).perfLin =
      (applyUpdates (hybridInit hsz nets0 wL wT wN) seq).perfThom ∧
    (applyUpdates (hybridInit hsz nets0 wL wT wN) seq).perfThom =
      (applyUpdates (hybridInit hsz nets0 wL wT wN) seq).perfNeur ∧
    (bestPerformerPerf (applyUpdates (hybridInit hsz nets0 wL wT wN) seq)).1 =
      (bestPerformerPerf (applyUpdates (hybridInit hsz nets0 wL wT wN) seq)).2.1 ∧
    (bestPerformerPerf (applyUpdates (hybridInit hsz nets0 wL wT wN) seq)).2.1 =
      (bestPerformerPerf (applyUpdates (hybridInit hsz nets0 wL wT wN) seq)).2.2 ∧
    listMean (lastN 100 (applyUpdates (hybridInit hsz nets0 wL wT wN) seq).perfLin) =
      listMean (lastN 100 (applyUpdates (hybridInit hsz nets0 wL wT wN) seq).perfThom) ∧
    listMean (lastN 100 (applyUpdates (hybridInit hsz nets0 wL wT wN) seq).perfThom) =
      listMean (lastN 100 (applyUpdates (hybridInit hsz nets0 wL wT wN) seq).perfNeur) := by
  obtain ⟨e1, e2⟩ :=
    applyUpdates_perf_eq seq (hybridInit hsz nets0 wL wT wN) rfl rfl
  exact ⟨e1, e2, by simp [bestPerformerPerf, e1, e2], by simp [bestPerformerPerf, e1, e2],
    by rw [e1], by rw [e2]⟩

/-- The ensemble score dictionary of `_weighted_voting` (lines 82–141): per
skill, the regularized LinUCB UCB score, a fresh Thompson Beta draw (oracle
`tSample`), the neural prediction plus `1/sqrt(max(updates, 1))`, combined
with the ensemble weights; `none` when the regularized inversion fails. -/
noncomputable def hybridScores {hsz : ℕ} (s : HybridState hsz)
    (tSample : Skill → ℚ) : List (Skill × Vec2) → Option (List (Skill × ℝ))
  | [] => some []
  | (sk, x) :: rest =>
    match hybridRegInv (s.linucb.A sk) with
    | none => none
    | some Ai =>
      let lin : ℝ := ((dot (Ai.mulVec (s.linucb.b sk)) x : ℚ) : ℝ) +
        (s.linucb.alpha : ℝ) * Real.sqrt ((dot x (Ai.mulVec x) : ℚ) : ℝ)
      let th : ℝ := ((tSample sk : ℚ) : ℝ)
      let neu : ℝ := ((NeuralUCB.forward (s.neural.nets sk) (vec2Fn x) : ℚ) : ℝ) +
        1 / Real.sqrt ((max (s.neural.updates sk) 1 : ℕ) : ℝ)
      let ens := s.wLin * lin + s.wThom * th + s.wNeur * neu
      (hybridScores s tSample rest).map ((sk, ens) :: ·)

/-- `_weighted_voting`'s final `max(skill_scores, key=skill_scores.get)`:
`none` on an empty candidate map, where Python's `max` raises. -/
noncomputable def weightedVoting {hsz : ℕ} (s : HybridState hsz)
    (tSample : Skill → ℚ) (ctxs : List (Skill × Vec2)) : Option Skill :=
  match hybridScores s tSample ctxs with
  | none => none
  | some l => (pickMax l).map (·.1)

/-- C7: a `recommend` call with an empty candidate-context map returns no arm
and signals an error instead (`max` over the empty score dict raises
`ValueError`), both in `LinUCB.recommend` and in the hybrid ensemble's
`_weighted_voting`, whatever the engine state. -/
theorem empty_candidate_set_errors :
    (∀ st : LinUCBState, LinUCB.recommend st [] = none) ∧
    (∀ (hsz : ℕ) (s : HybridState hsz) (tSample : Skill → ℚ),
      weightedVoting s tSample [] = none) :=
  ⟨fun _ => rfl, fun _ _ _ => rfl⟩

end SkillGap
